import Mathlib

/-!
Verification of the owls-parallel capture/dispatch engine.

This file gives a shallow embedding of the engine's core:

* the nested job registry built by `ParallelizedEnvironment._record`
  (a three-level `defaultdict`: key → batcher → function → list of calls),
* the `@parallelized` wrapper's capture behaviour,
* the `run()` state machine of `ParallelizedEnvironment`,
* the completion-monitoring loop of `ParallelizedEnvironment._compute`,
* the `prune` implementations of the multiprocessing and IPython backends,
* the `start` implementations of the multiprocessing and batch backends.

Python dictionaries are embedded as association lists (insertion-ordered,
like Python dicts); machine-level details (pickling, uuids, actual process
pools) are abstracted to their observable structure.
-/

namespace OwlsParallel

/-- Association-list lookup: returns the value of the first matching key,
mirroring Python dictionary lookup. -/
def lookupA {α β : Type} [DecidableEq α] : List (α × β) → α → Option β
  | [], _ => none
  | (k, v) :: rest, k' => if k' = k then some v else lookupA rest k'

/-- Association-list update-or-insert, mirroring `d[k]` on a Python
`defaultdict`: if `k` is present its value is rewritten through `f`,
otherwise the default `d` is materialized, passed through `f`, and the new
entry is appended at the end (Python dicts preserve insertion order). -/
def updateAssoc {α β : Type} [DecidableEq α] (m : List (α × β)) (k : α) (d : β)
    (f : β → β) : List (α × β) :=
  match m with
  | [] => [(k, f d)]
  | (k', v) :: rest =>
    if k = k' then (k', f v) :: rest else (k', v) :: updateAssoc rest k d f

/-- The job registry structure of `ParallelizedEnvironment._jobs`:
`{key: {batcher: {function: [(args1, kwargs1), ...]}}}`. -/
abbrev Jobs (K B F C : Type) := List (K × List (B × List (F × List C)))

/-- `ParallelizedEnvironment._record(key, batcher, function, args, kwargs)`:
`self._jobs[key][batcher][function].append((args, kwargs))`, with
`defaultdict` auto-vivification at each level.  `C` stands for one
`(args, kwargs)` pair. -/
def record {K B F C : Type} [DecidableEq K] [DecidableEq B] [DecidableEq F]
    (jobs : Jobs K B F C) (k : K) (b : B) (f : F) (c : C) : Jobs K B F C :=
  updateAssoc jobs k []
    (fun m1 => updateAssoc m1 b []
      (fun m2 => updateAssoc m2 f [] (fun l => l ++ [c])))

/-- Membership of a call in the function → calls level of the registry. -/
def memFn {F C : Type} [DecidableEq F] [DecidableEq C]
    (m2 : List (F × List C)) (f : F) (c : C) : Bool :=
  match lookupA m2 f with
  | none => false
  | some l => decide (c ∈ l)

/-- Membership of a call in a batcher → function → calls sub-structure
(the part of the registry a single backend unit receives and executes). -/
def memBatch {B F C : Type} [DecidableEq B] [DecidableEq F] [DecidableEq C]
    (m1 : List (B × List (F × List C))) (b : B) (f : F) (c : C) : Bool :=
  match lookupA m1 b with
  | none => false
  | some m2 => memFn m2 f c

/-- Membership of a call in the full registry under a given top-level key. -/
def memCall {K B F C : Type} [DecidableEq K] [DecidableEq B] [DecidableEq F]
    [DecidableEq C] (jobs : Jobs K B F C) (k : K) (b : B) (f : F) (c : C) :
    Bool :=
  match lookupA jobs k with
  | none => false
  | some m1 => memBatch m1 b f c

/-- One recording event: the argument tuple of a `_record` call. -/
structure Rec (K B F C : Type) where
  key : K
  batcher : B
  fn : F
  call : C
  deriving DecidableEq, Repr

/-- The registry obtained by replaying a list of `_record` events against a
freshly constructed (empty) `ParallelizedEnvironment._jobs`. -/
def buildJobs {K B F C : Type} [DecidableEq K] [DecidableEq B] [DecidableEq F]
    (L : List (Rec K B F C)) : Jobs K B F C :=
  L.foldl (fun j e => record j e.key e.batcher e.fn e.call) []

/-- Top-level keys of a registry, in insertion order. -/
def keysOf {K B F C : Type} (jobs : Jobs K B F C) : List K :=
  jobs.map Prod.fst

/-- The wrapper produced by the `@parallelized(default_generator, mapper,
batcher)` decorator, called on one argument bundle `c` (standing for the
`(args, kwargs)` pair).  `par` is the thread-local parallelizer returned by
`_get_parallelizer()`, carried here as the active registry (or `none`).

The result is `(returned value, updated registry, number of times the
underlying target body ran during this call)`:

* parallelizer absent: `return f(*args, **kwargs)` — the target runs once;
* parallelizer present: `key = repr(mapper(*args, **kwargs))`;
  `parallelizer._record(key, batcher, wrapper, args, kwargs)`; the wrapper
  itself (`selfId`) is registered, and `default_generator(*args, **kwargs)`
  is returned without invoking the target. -/
def wrapperCall {K B F C V : Type} [DecidableEq B] [DecidableEq F]
    (mapper : C → K) (reprK : K → String) (defaultGen : C → V) (target : C → V)
    (batcher : B) (selfId : F) (par : Option (Jobs String B F C)) (c : C) :
    V × Option (Jobs String B F C) × Nat :=
  match par with
  | none => (target c, none, 1)
  | some jobs =>
    (defaultGen c, some (record jobs (reprK (mapper c)) batcher selfId c), 0)

/-! ### The `run()` state machine of `ParallelizedEnvironment` -/

/-- Observable events of one `run()` call, in program order. -/
inductive REvent where
  /-- `self._captured = True` -/
  | setCaptured
  /-- `self._computed = True` -/
  | setComputed
  /-- `_set_parallelizer(self)` -/
  | setCtx
  /-- `_set_parallelizer(None)` -/
  | clearCtx
  /-- `_get_cache()` returned `None`: `RuntimeError` raised in `_compute` -/
  | cacheCheckFailed
  /-- `self._backend.start(...)` reached inside `_compute` -/
  | backendStart
  deriving DecidableEq, Repr

/-- The mutable flags relevant to `run()`: `self._captured`,
`self._computed`, and whether the thread-local parallelizer currently
points at this environment. -/
structure RState where
  captured : Bool
  computed : Bool
  ctx : Bool
  deriving DecidableEq, Repr

/-- Errors that can propagate out of `run()`. -/
inductive RunError where
  /-- `RuntimeError('not inside a cached context')` -/
  | noCache
  /-- an exception propagated from the backend through `start`/`prune` -/
  | computeFailed
  deriving DecidableEq, Repr

/-- One call to `ParallelizedEnvironment.run()`.  `hasBackend` is
`self._backend is not None`; `cacheOk` is whether `_get_cache()` returns a
cache inside `_compute`; `computeOk` is whether the backend start/monitor
phase completes without raising.  Returns the Python return value (or the
propagated exception), the post-call state, and the event trace.

Transcribed branch by branch from `run()`:

1. no backend and not yet captured/computed: mark captured and computed,
   return `True` (fallback mode; the parallelizer is never set);
2. not captured: `self._captured = True; _set_parallelizer(self)`,
   return `True`;
3. not computed: `self._computed = True; _set_parallelizer(None);
   self._compute(progress)`, return `True` (an exception in `_compute`
   propagates after the flag and context updates);
4. otherwise: return `False`. -/
def runCall (hasBackend cacheOk computeOk : Bool) (s : RState) :
    Except RunError Bool × RState × List REvent :=
  if !hasBackend && !(s.captured || s.computed) then
    (.ok true, ⟨true, true, s.ctx⟩, [.setCaptured, .setComputed])
  else if !s.captured then
    (.ok true, ⟨true, s.computed, true⟩, [.setCaptured, .setCtx])
  else if !s.computed then
    let s' : RState := ⟨s.captured, true, false⟩
    if !cacheOk then
      (.error .noCache, s', [.setComputed, .clearCtx, .cacheCheckFailed])
    else if computeOk then
      (.ok true, s', [.setComputed, .clearCtx, .backendStart])
    else
      (.error .computeFailed, s', [.setComputed, .clearCtx, .backendStart])
  else
    (.ok false, s, [])

/-- The state after `n` calls to `run()` on a fresh environment
(`self._captured = self._computed = False`, no active parallelizer). -/
def runStateAt (hasBackend cacheOk computeOk : Bool) : Nat → RState
  | 0 => ⟨false, false, false⟩
  | n + 1 =>
    (runCall hasBackend cacheOk computeOk
      (runStateAt hasBackend cacheOk computeOk n)).2.1

/-- The value returned (or exception raised) by the `n`-th call to `run()`
(0-indexed) on a fresh environment. -/
def runResultAt (hasBackend cacheOk computeOk : Bool) (n : Nat) :
    Except RunError Bool :=
  (runCall hasBackend cacheOk computeOk
    (runStateAt hasBackend cacheOk computeOk n)).1

/-! ### The completion-monitoring loop of `_compute` -/

/-- Whether waiting for jobs is driven by polling or by notification; the
value every backend's `mode()` returns. -/
inductive BackendMode where
  | notify
  | poll
  deriving DecidableEq, Repr

/-- A remote failure surfaced by `prune` (an exception raised by a
dispatched unit, re-raised locally by `job.get()`). -/
inductive RemoteError where
  | remote
  deriving DecidableEq, Repr

/-- Observable events of the monitoring loop in `_compute`. -/
inductive MEvent where
  /-- `self._backend.prune(remaining_jobs)` -/
  | pruneCall
  /-- the progress bar was printed -/
  | progressPrint
  /-- `sleep(self._monitor_interval)` -/
  | sleepCall
  /-- blocking on a notification signal (never emitted by this code) -/
  | notifyWait
  deriving DecidableEq, Repr

/-- Termination status of the monitoring loop. -/
inductive MonitorError where
  /-- fuel exhausted (the loop had not terminated after that many passes) -/
  | outOfFuel
  /-- `ZeroDivisionError` from `1.0 * completed / total` with `total == 0` -/
  | divisionByZero
  /-- an exception propagated out of `prune` -/
  | pruneFailed (e : RemoteError)
  deriving DecidableEq, Repr

/-- The `while True:` monitoring loop of `_compute`, one constructor case
per pass, with `fuel` bounding the number of passes.  Each pass:
`remaining = prune(remaining)`; `total = len(all_jobs)`;
`completed = total - len(remaining)`; if `progress`, compute
`1.0 * completed / total` (a `ZeroDivisionError` when `total == 0`) and
print; break when `completed == total`; otherwise
`sleep(self._monitor_interval)` and loop. -/
def monitorLoop {H : Type} (pruneF : List H → Except RemoteError (List H))
    (progress : Bool) (allJobs : List H) :
    Nat → List H → Except MonitorError Unit × List MEvent
  | 0, _ => (.error .outOfFuel, [])
  | fuel + 1, remaining =>
    match pruneF remaining with
    | .error e => (.error (.pruneFailed e), [.pruneCall])
    | .ok remaining2 =>
      let total := allJobs.length
      let completed := total - remaining2.length
      if progress && decide (total = 0) then
        (.error .divisionByZero, [.pruneCall])
      else if completed = total then
        (.ok (), .pruneCall :: if progress then [.progressPrint] else [])
      else
        let rest := monitorLoop pruneF progress allJobs fuel remaining2
        (rest.1,
          (.pruneCall :: if progress then [.progressPrint] else []) ++
            .sleepCall :: rest.2)

/-- `_compute`'s monitoring as a function of the backend's declared mode.
The source never calls `self._backend.mode()` and never constructs a
notification signal: the loop body is the same unconditional
prune/print/sleep cycle whatever the backend reports, so the mode argument
is never consulted. -/
def computeMonitor {H : Type} (_mode : BackendMode)
    (pruneF : List H → Except RemoteError (List H)) (progress : Bool)
    (allJobs : List H) (fuel : Nat) (remaining : List H) :
    Except MonitorError Unit × List MEvent :=
  monitorLoop pruneF progress allJobs fuel remaining

/-! ### `prune` of the IPython backend -/

/-- An IPython `AsyncResult` handle, reduced to what `prune` observes:
`j.ready()` and whether `j.get()` re-raises a remote exception. -/
structure IPJob where
  ready : Bool
  failed : Bool
  deriving DecidableEq, Repr

/-- `IPythonParallelizationBackend.prune`: iterate over the input in order
building a fresh list; for a ready job call `get()` (re-raising a remote
exception, which aborts the iteration); otherwise append the job to the
result.  The input list is never modified — a new list is built. -/
def ipPrune : List IPJob → Except RemoteError (List IPJob)
  | [] => .ok []
  | j :: rest =>
    if j.ready then
      if j.failed then .error .remote else ipPrune rest
    else
      (ipPrune rest).map (j :: ·)

/-! ### `prune` of the multiprocessing backend -/

/-- A `multiprocessing.pool.AsyncResult` handle as `prune` observes it:
`job.ready()` and whether `job.get()` re-raises.  Handles are stored in a
dictionary keyed by the uuid hex assigned in `start`. -/
structure MPJob where
  ready : Bool
  failed : Bool
  deriving DecidableEq, Repr

/-- The queue-draining phase of `MultiprocessingParallelizationBackend.prune`:
for every job id taken off the internal notification queue that is present
in `jobs`, `job.wait()` is called; `wait` returns once the result is marked
ready, so its post-state is the handle with `ready` set.  Ids not present
in `jobs` are skipped (their completion was picked up by an earlier prune).
The dictionary itself is not restructured. -/
def drainQueue (queue : List String) (jobs : List (String × MPJob)) :
    List (String × MPJob) :=
  queue.foldl
    (fun js i =>
      js.map (fun kv => if kv.1 = i then (kv.1, ⟨true, kv.2.failed⟩) else kv))
    jobs

/-- The filtering phase of the multiprocessing `prune`: build a fresh
dictionary; for each entry, a ready job has `get()` called on it (re-raising
any remote exception), a non-ready job is copied into the result. -/
def mpPruneScan : List (String × MPJob) → Except RemoteError (List (String × MPJob))
  | [] => .ok []
  | kv :: rest =>
    if kv.2.ready then
      if kv.2.failed then .error .remote else mpPruneScan rest
    else
      (mpPruneScan rest).map (kv :: ·)

/-- `MultiprocessingParallelizationBackend.prune`: first drain the internal
notification queue (waiting on the named jobs), then scan the dictionary,
re-raising remote exceptions of ready jobs and returning a fresh dictionary
of the unfinished ones.  After the call the internal queue is empty. -/
def mpPrune (queue : List String) (jobs : List (String × MPJob)) :
    Except RemoteError (List (String × MPJob)) :=
  mpPruneScan (drainQueue queue jobs)

/-! ### `start` of the multiprocessing and batch backends -/

/-- `MultiprocessingParallelizationBackend.start`: one
`self._cluster.apply_async(_run, (job_id, cache, spec), callback=notify)`
per top-level value of the job specification, collected in a dictionary
keyed by a fresh uuid hex.  Uuids are modelled by the position index; each
handle is paired with the sub-structure its `_run` unit executes.  The
`cache` argument and the notify callback only affect transport, not the
launched structure, and are omitted. -/
def mpStart {K B F C : Type} (specs : Jobs K B F C) :
    List (Nat × List (B × List (F × List C))) :=
  specs.enum.map (fun p => (p.1, p.2.2))

/-- `BatchParallelizationBackend.start`: one generated script and one
`self._submit(...)` per top-level value of the job specification; the
returned collection holds one job id per submitted script (ids modelled by
position). -/
def batchStart {K B F C : Type} (specs : Jobs K B F C) : List Nat :=
  specs.enum.map Prod.fst

/-- The body of `_run` (multiprocessing) and of the generated batch script:
for each `(batcher, calls)` item of the unit's sub-structure and each
`(function, args_kwargs)` item below it, invoke
`batcher(function, args_kwargs)`.  The result lists those invocations. -/
def runJobInvocations {B F C : Type} (spec : List (B × List (F × List C))) :
    List (B × F × List C) :=
  (spec.map (fun bm => bm.2.map (fun fm => (bm.1, fm.1, fm.2)))).flatten

/-! ### The fallback scenario (no backend)

The test computation `owls_parallel.testing.computation` is
`@parallelized(lambda a, b: 0, lambda a, b: a)` applied on top of
`@persistently_cached` applied to a body that increments a global counter
and returns `a + b`. -/

/-- Modelled from the spec: the persistent-cache collaborator
(`owls_cache.persistent.cached`, outside this repository) is specified only
at its interface — executing a call makes its result visible to a later
call with the same arguments.  It is modelled as memoization keyed by the
argument pair.  The state is `(counter, cache contents)`; on a miss the
body runs: the counter is incremented and `a + b` is stored and returned;
on a hit the cached value is returned and the body does not run. -/
def addBody (st : Nat × List ((Nat × Nat) × Nat)) (ab : Nat × Nat) :
    Nat × (Nat × List ((Nat × Nat) × Nat)) :=
  match lookupA st.2 ab with
  | some v => (v, st)
  | none => (ab.1 + ab.2, (st.1 + 1, st.2 ++ [(ab, ab.1 + ab.2)]))

/-- One call to `computation(a, b)`: the `@parallelized` wrapper around the
persistently-cached counter-incrementing add.  `par` is the thread-local
parallelizer; the batcher and the wrapper are identified by `0`.  Returns
`(value, updated counter/cache state, updated parallelizer registry)`. -/
def computationCall (par : Option (Jobs String Nat Nat (Nat × Nat)))
    (st : Nat × List ((Nat × Nat) × Nat)) (ab : Nat × Nat) :
    Nat × (Nat × List ((Nat × Nat) × Nat)) ×
      Option (Jobs String Nat Nat (Nat × Nat)) :=
  match par with
  | none =>
    let r := addBody st ab
    (r.1, r.2, none)
  | some jobs => (0, st, some (record jobs (toString ab.1) 0 0 ab))

/-! ### Registry lemmas -/

theorem lookupA_updateAssoc {α β : Type} [DecidableEq α] (m : List (α × β))
    (k k' : α) (d : β) (f : β → β) :
    lookupA (updateAssoc m k d f) k' =
      if k' = k then some (f ((lookupA m k).getD d)) else lookupA m k' := by
  induction m with
  | nil =>
    by_cases h : k' = k <;> simp [updateAssoc, lookupA, h]
  | cons kv rest ih =>
    obtain ⟨a, b⟩ := kv
    by_cases hka : k = a
    · subst hka
      by_cases hk' : k' = k <;> simp [updateAssoc, lookupA, hk']
    · by_cases hk' : k' = a
      · subst hk'
        have : ¬k' = k := fun h => hka h.symm
        simp [updateAssoc, lookupA, hka, this]
      · simp [updateAssoc, lookupA, hka, hk', ih]

theorem memFn_nil {F C : Type} [DecidableEq F] [DecidableEq C] (f : F) (c : C) :
    memFn ([] : List (F × List C)) f c = false := rfl

theorem memBatch_nil {B F C : Type} [DecidableEq B] [DecidableEq F]
    [DecidableEq C] (b : B) (f : F) (c : C) :
    memBatch ([] : List (B × List (F × List C))) b f c = false := rfl

theorem memCall_nil {K B F C : Type} [DecidableEq K] [DecidableEq B]
    [DecidableEq F] [DecidableEq C] (k : K) (b : B) (f : F) (c : C) :
    memCall ([] : Jobs K B F C) k b f c = false := rfl

theorem memFn_update {F C : Type} [DecidableEq F] [DecidableEq C]
    (m2 : List (F × List C)) (f f' : F) (c c' : C) :
    (memFn (updateAssoc m2 f [] (fun l => l ++ [c])) f' c' = true) ↔
      ((f' = f ∧ c' = c) ∨ memFn m2 f' c' = true) := by
  by_cases h : f' = f
  · subst h
    cases hl : lookupA m2 f' with
    | none => simp [memFn, lookupA_updateAssoc, hl]
    | some l => simp [memFn, lookupA_updateAssoc, hl, or_comm]
  · simp [memFn, lookupA_updateAssoc, h]

theorem memBatch_update {B F C : Type} [DecidableEq B] [DecidableEq F]
    [DecidableEq C] (m1 : List (B × List (F × List C))) (b b' : B) (f f' : F)
    (c c' : C) :
    (memBatch
        (updateAssoc m1 b []
          (fun m2 => updateAssoc m2 f [] (fun l => l ++ [c]))) b' f' c'
      = true) ↔
      ((b' = b ∧ f' = f ∧ c' = c) ∨ memBatch m1 b' f' c' = true) := by
  by_cases h : b' = b
  · subst h
    cases hl : lookupA m1 b' with
    | none =>
      simp [memBatch, lookupA_updateAssoc, hl, memFn_update, memFn_nil]
    | some m2 =>
      simp [memBatch, lookupA_updateAssoc, hl, memFn_update]
  · simp [memBatch, lookupA_updateAssoc, h]

theorem memCall_record {K B F C : Type} [DecidableEq K] [DecidableEq B]
    [DecidableEq F] [DecidableEq C] (jobs : Jobs K B F C) (k k' : K) (b b' : B)
    (f f' : F) (c c' : C) :
    (memCall (record jobs k b f c) k' b' f' c' = true) ↔
      ((k' = k ∧ b' = b ∧ f' = f ∧ c' = c) ∨
        memCall jobs k' b' f' c' = true) := by
  by_cases h : k' = k
  · subst h
    cases hl : lookupA jobs k' with
    | none =>
      simp [memCall, record, lookupA_updateAssoc, hl, memBatch_update,
        memBatch_nil]
    | some m1 =>
      simp [memCall, record, lookupA_updateAssoc, hl, memBatch_update]
  · simp [memCall, record, lookupA_updateAssoc, h]

theorem memCall_foldl {K B F C : Type} [DecidableEq K] [DecidableEq B]
    [DecidableEq F] [DecidableEq C] (L : List (Rec K B F C)) :
    ∀ (j : Jobs K B F C) (k : K) (b : B) (f : F) (c : C),
      (memCall (L.foldl (fun jj e => record jj e.key e.batcher e.fn e.call) j)
          k b f c = true) ↔
        ((⟨k, b, f, c⟩ : Rec K B F C) ∈ L ∨ memCall j k b f c = true) := by
  induction L with
  | nil => simp
  | cons e rest ih =>
    obtain ⟨ek, eb, ef, ec⟩ := e
    intro j k b f c
    simp only [List.foldl_cons]
    rw [ih, memCall_record]
    simp only [List.mem_cons, Rec.mk.injEq]
    tauto

theorem memCall_buildJobs {K B F C : Type} [DecidableEq K] [DecidableEq B]
    [DecidableEq F] [DecidableEq C] (L : List (Rec K B F C)) (k : K) (b : B)
    (f : F) (c : C) :
    (memCall (buildJobs L) k b f c = true) ↔
      (⟨k, b, f, c⟩ : Rec K B F C) ∈ L := by
  have h := memCall_foldl L [] k b f c
  simpa [buildJobs, memCall_nil] using h

theorem mapFst_updateAssoc {α β : Type} [DecidableEq α] (m : List (α × β))
    (k : α) (d : β) (f : β → β) :
    (updateAssoc m k d f).map Prod.fst =
      if k ∈ m.map Prod.fst then m.map Prod.fst
      else m.map Prod.fst ++ [k] := by
  induction m with
  | nil => simp [updateAssoc]
  | cons kv rest ih =>
    obtain ⟨a, b⟩ := kv
    by_cases h : k = a
    · subst h; simp [updateAssoc]
    · by_cases hm : k ∈ rest.map Prod.fst <;>
        simp [updateAssoc, h, ih, hm, Ne.symm h]

theorem keysOf_record {K B F C : Type} [DecidableEq K] [DecidableEq B]
    [DecidableEq F] (jobs : Jobs K B F C) (k : K) (b : B) (f : F) (c : C) :
    keysOf (record jobs k b f c) =
      if k ∈ keysOf jobs then keysOf jobs else keysOf jobs ++ [k] :=
  mapFst_updateAssoc jobs k _ _

theorem mem_keysOf_record {K B F C : Type} [DecidableEq K] [DecidableEq B]
    [DecidableEq F] (jobs : Jobs K B F C) (k k' : K) (b : B) (f : F) (c : C) :
    k' ∈ keysOf (record jobs k b f c) ↔ k' = k ∨ k' ∈ keysOf jobs := by
  rw [keysOf_record]
  by_cases h : k ∈ keysOf jobs
  · simp only [h, if_pos]
    constructor
    · exact Or.inr
    · rintro (rfl | hh)
      · exact h
      · exact hh
  · simp [h, or_comm]

theorem keysOf_record_nodup {K B F C : Type} [DecidableEq K] [DecidableEq B]
    [DecidableEq F] (jobs : Jobs K B F C) (k : K) (b : B) (f : F) (c : C)
    (h : (keysOf jobs).Nodup) : (keysOf (record jobs k b f c)).Nodup := by
  rw [keysOf_record]
  by_cases hm : k ∈ keysOf jobs
  · simpa [hm] using h
  · simp [hm, List.nodup_append, h]

theorem keysOf_foldl_nodup {K B F C : Type} [DecidableEq K] [DecidableEq B]
    [DecidableEq F] (L : List (Rec K B F C)) :
    ∀ j : Jobs K B F C, (keysOf j).Nodup →
      (keysOf
        (L.foldl (fun jj e => record jj e.key e.batcher e.fn e.call) j)).Nodup := by
  induction L with
  | nil => intro j h; simpa using h
  | cons e rest ih =>
    intro j h
    simp only [List.foldl_cons]
    exact ih _ (keysOf_record_nodup _ _ _ _ _ h)

theorem mem_keysOf_foldl {K B F C : Type} [DecidableEq K] [DecidableEq B]
    [DecidableEq F] (L : List (Rec K B F C)) :
    ∀ (j : Jobs K B F C) (k : K),
      k ∈ keysOf
          (L.foldl (fun jj e => record jj e.key e.batcher e.fn e.call) j) ↔
        k ∈ L.map Rec.key ∨ k ∈ keysOf j := by
  induction L with
  | nil => simp
  | cons e rest ih =>
    intro j k
    simp only [List.foldl_cons, List.map_cons, List.mem_cons]
    rw [ih, mem_keysOf_record]
    tauto

theorem keysOf_buildJobs_nodup {K B F C : Type} [DecidableEq K] [DecidableEq B]
    [DecidableEq F] (L : List (Rec K B F C)) :
    (keysOf (buildJobs L)).Nodup :=
  keysOf_foldl_nodup L [] (by simp [keysOf])

theorem mem_keysOf_buildJobs {K B F C : Type} [DecidableEq K] [DecidableEq B]
    [DecidableEq F] (L : List (Rec K B F C)) (k : K) :
    k ∈ keysOf (buildJobs L) ↔ k ∈ L.map Rec.key := by
  have h := mem_keysOf_foldl L [] k
  simpa [buildJobs, keysOf] using h

theorem length_buildJobs {K B F C : Type} [DecidableEq K] [DecidableEq B]
    [DecidableEq F] (L : List (Rec K B F C)) :
    (buildJobs L).length = (L.map Rec.key).toFinset.card := by
  have hnd := keysOf_buildJobs_nodup L
  have hset : (keysOf (buildJobs L)).toFinset = (L.map Rec.key).toFinset := by
    apply Finset.ext
    intro x
    simp [List.mem_toFinset, mem_keysOf_buildJobs]
  calc (buildJobs L).length
      = (keysOf (buildJobs L)).length := (List.length_map _ _).symm
    _ = (keysOf (buildJobs L)).toFinset.card :=
        (List.toFinset_card_of_nodup hnd).symm
    _ = (L.map Rec.key).toFinset.card := by rw [hset]

/-! ### Prune lemmas -/

theorem ipPrune_ok_of_no_failure (js : List IPJob)
    (h : ∀ j ∈ js, j.ready = true → j.failed = false) :
    ipPrune js = .ok (js.filter (fun j => !j.ready)) := by
  induction js with
  | nil => simp [ipPrune]
  | cons j rest ih =>
    have hr := ih (fun x hx hxr => h x (List.mem_cons_of_mem _ hx) hxr)
    by_cases hj : j.ready = true
    · have hf : j.failed = false := h j (List.mem_cons_self _ _) hj
      simp [ipPrune, hj, hf, hr, List.filter_cons]
    · have hj' : j.ready = false := by
        cases hh : j.ready
        · rfl
        · exact absurd hh hj
      simp [ipPrune, hj', hr, List.filter_cons, Except.map]

theorem ipPrune_error_of_failure (js : List IPJob)
    (h : ∃ j ∈ js, j.ready = true ∧ j.failed = true) :
    ipPrune js = .error .remote := by
  induction js with
  | nil => simp at h
  | cons j rest ih =>
    obtain ⟨x, hx, hxr, hxf⟩ := h
    rcases List.mem_cons.mp hx with rfl | hx'
    · simp [ipPrune, hxr, hxf]
    · have hr := ih ⟨x, hx', hxr, hxf⟩
      by_cases hj : j.ready = true
      · by_cases hf : j.failed = true
        · simp [ipPrune, hj, hf]
        · have hf' : j.failed = false := by
            cases hh : j.failed
            · rfl
            · exact absurd hh hf
          simp [ipPrune, hj, hf', hr]
      · have hj' : j.ready = false := by
          cases hh : j.ready
          · rfl
          · exact absurd hh hj
        simp [ipPrune, hj', hr, Except.map]

theorem ipPrune_ok_iff (js : List IPJob) (r : List IPJob) :
    ipPrune js = .ok r ↔
      ((∀ j ∈ js, j.ready = true → j.failed = false) ∧
        r = js.filter (fun j => !j.ready)) := by
  constructor
  · intro h
    by_cases hfail : ∀ j ∈ js, j.ready = true → j.failed = false
    · refine ⟨hfail, ?_⟩
      have := ipPrune_ok_of_no_failure js hfail
      rw [h] at this
      exact Except.ok.inj this
    · exfalso
      push_neg at hfail
      obtain ⟨x, hx, hxr, hxf⟩ := hfail
      have hxf' : x.failed = true := by
        cases hh : x.failed
        · exact absurd hh hxf
        · rfl
      have := ipPrune_error_of_failure js ⟨x, hx, hxr, hxf'⟩
      rw [h] at this
      exact Except.noConfusion this
  · rintro ⟨hok, rfl⟩
    exact ipPrune_ok_of_no_failure js hok

theorem ipPrune_idem (r : List IPJob) (h : ∀ j ∈ r, j.ready = false) :
    ipPrune r = .ok r := by
  rw [ipPrune_ok_iff]
  refine ⟨fun j hj hr => absurd hr (by simp [h j hj]), ?_⟩
  rw [eq_comm, List.filter_eq_self]
  intro j hj
  simp [h j hj]

theorem mpPruneScan_ok_of_no_failure (js : List (String × MPJob))
    (h : ∀ p ∈ js, p.2.ready = true → p.2.failed = false) :
    mpPruneScan js = .ok (js.filter (fun p => !p.2.ready)) := by
  induction js with
  | nil => simp [mpPruneScan]
  | cons j rest ih =>
    have hr := ih (fun x hx hxr => h x (List.mem_cons_of_mem _ hx) hxr)
    by_cases hj : j.2.ready = true
    · have hf : j.2.failed = false := h j (List.mem_cons_self _ _) hj
      simp [mpPruneScan, hj, hf, hr, List.filter_cons]
    · have hj' : j.2.ready = false := by
        cases hh : j.2.ready
        · rfl
        · exact absurd hh hj
      simp [mpPruneScan, hj', hr, List.filter_cons, Except.map]

theorem mpPruneScan_error_of_failure (js : List (String × MPJob))
    (h : ∃ p ∈ js, p.2.ready = true ∧ p.2.failed = true) :
    mpPruneScan js = .error .remote := by
  induction js with
  | nil => simp at h
  | cons j rest ih =>
    obtain ⟨x, hx, hxr, hxf⟩ := h
    rcases List.mem_cons.mp hx with rfl | hx'
    · simp [mpPruneScan, hxr, hxf]
    · have hr := ih ⟨x, hx', hxr, hxf⟩
      by_cases hj : j.2.ready = true
      · by_cases hf : j.2.failed = true
        · simp [mpPruneScan, hj, hf]
        · have hf' : j.2.failed = false := by
            cases hh : j.2.failed
            · rfl
            · exact absurd hh hf
          simp [mpPruneScan, hj, hf', hr]
      · have hj' : j.2.ready = false := by
          cases hh : j.2.ready
          · rfl
          · exact absurd hh hj
        simp [mpPruneScan, hj', hr, Except.map]

theorem mpPruneScan_ok_iff (js : List (String × MPJob))
    (r : List (String × MPJob)) :
    mpPruneScan js = .ok r ↔
      ((∀ p ∈ js, p.2.ready = true → p.2.failed = false) ∧
        r = js.filter (fun p => !p.2.ready)) := by
  constructor
  · intro h
    by_cases hfail : ∀ p ∈ js, p.2.ready = true → p.2.failed = false
    · refine ⟨hfail, ?_⟩
      have := mpPruneScan_ok_of_no_failure js hfail
      rw [h] at this
      exact Except.ok.inj this
    · exfalso
      push_neg at hfail
      obtain ⟨x, hx, hxr, hxf⟩ := hfail
      have hxf' : x.2.failed = true := by
        cases hh : x.2.failed
        · exact absurd hh hxf
        · rfl
      have := mpPruneScan_error_of_failure js ⟨x, hx, hxr, hxf'⟩
      rw [h] at this
      exact Except.noConfusion this
  · rintro ⟨hok, rfl⟩
    exact mpPruneScan_ok_of_no_failure js hok

theorem drainQueue_nil (jobs : List (String × MPJob)) :
    drainQueue [] jobs = jobs := rfl

theorem mpPrune_idem (r : List (String × MPJob))
    (h : ∀ p ∈ r, p.2.ready = false) : mpPrune [] r = .ok r := by
  rw [mpPrune, drainQueue_nil, mpPruneScan_ok_iff]
  refine ⟨fun p hp hr => absurd hr (by simp [h p hp]), ?_⟩
  rw [eq_comm, List.filter_eq_self]
  intro p hp
  simp [h p hp]

/-! ### Monitoring-loop lemmas -/

/-- Whether an event is a blocking wait on a notification signal. -/
def isNotifyWait : MEvent → Bool
  | .notifyWait => true
  | _ => false

/-- Whether a trace contains a blocking wait on a notification signal. -/
def hasNotifyWait (l : List MEvent) : Bool := l.any isNotifyWait

theorem monitorLoop_no_notifyWait {H : Type}
    (pruneF : List H → Except RemoteError (List H)) (progress : Bool)
    (allJobs : List H) :
    ∀ (fuel : Nat) (remaining : List H),
      hasNotifyWait (monitorLoop pruneF progress allJobs fuel remaining).2
        = false := by
  intro fuel
  induction fuel with
  | zero => intro remaining; simp [monitorLoop, hasNotifyWait]
  | succ n ih =>
    intro remaining
    simp only [monitorLoop]
    cases hpr : pruneF remaining with
    | error e => simp [hasNotifyWait, isNotifyWait]
    | ok remaining2 =>
      simp only []
      split
      · simp [hasNotifyWait, isNotifyWait]
      · split
        · cases progress <;> simp [hasNotifyWait, isNotifyWait]
        · have hih := ih remaining2
          cases progress <;>
            simpa [hasNotifyWait, isNotifyWait] using hih

/-! ### State-machine lemmas -/

theorem runCall_done (hb cc co x : Bool) :
    runCall hb cc co ⟨true, true, x⟩ = (.ok false, ⟨true, true, x⟩, []) := by
  cases hb <;> rfl

theorem runStateAt_backend_two (n : Nat) :
    runStateAt true true true (n + 2) = ⟨true, true, false⟩ := by
  induction n with
  | zero => rfl
  | succ m ih =>
    show (runCall true true true (runStateAt true true true (m + 2))).2.1 = _
    rw [ih]
    rfl

theorem runStateAt_fallback_one (n : Nat) :
    runStateAt false true true (n + 1) = ⟨true, true, false⟩ := by
  induction n with
  | zero => rfl
  | succ m ih =>
    show (runCall false true true (runStateAt false true true (m + 1))).2.1 = _
    rw [ih]
    rfl

/-! ## Claim theorems -/

/-- C1: with a backend present (and the compute step completing normally),
`run()` returns `True` on exactly the first two calls and `False` on every
later call; with no backend it returns `True` only on the first call; once
it has returned `False` (both flags set), every subsequent call is a no-op
returning `False`; and no call of `run()`, under any backend/cache/compute
outcome, ever unsets the `_captured` or `_computed` flag. -/
theorem run_advance_termination :
    (∀ n : Nat, runResultAt true true true n = .ok (decide (n < 2))) ∧
    (∀ n : Nat, runResultAt false true true n = .ok (decide (n < 1))) ∧
    (∀ hb cc co x : Bool,
      runCall hb cc co ⟨true, true, x⟩ = (.ok false, ⟨true, true, x⟩, [])) ∧
    (∀ (hb cc co : Bool) (s : RState),
      s.captured ≤ ((runCall hb cc co s).2.1).captured ∧
      s.computed ≤ ((runCall hb cc co s).2.1).computed) := by
  refine ⟨?_, ?_, runCall_done, ?_⟩
  · intro n
    match n with
    | 0 => rfl
    | 1 => rfl
    | m + 2 =>
      have h2 : ¬(m + 2 < 2) := by omega
      simp only [runResultAt]
      rw [runStateAt_backend_two m]
      simp [runCall_done, h2]
  · intro n
    match n with
    | 0 => rfl
    | m + 1 =>
      have h1 : ¬(m + 1 < 1) := by omega
      simp only [runResultAt]
      rw [runStateAt_fallback_one m]
      simp [runCall_done, h1]
  · intro hb cc co s
    obtain ⟨a, b, c⟩ := s
    cases hb <;> cases cc <;> cases co <;> cases a <;> cases b <;> cases c <;>
      decide

/-- C2: while a capturing context is active (the thread-local parallelizer
is set), a call to the wrapped function records
`(repr(mapper(args)), batcher, wrapper, args/kwargs)` into the active
registry, returns `default_generator(args)`, and runs the underlying
target body zero times; the recorded call is present in the updated
registry under exactly that normalized key, batcher and wrapper. -/
theorem wrapper_capture_records {K B F C V : Type} [DecidableEq B]
    [DecidableEq F] [DecidableEq C] (mapper : C → K) (reprK : K → String)
    (defaultGen : C → V) (target : C → V) (batcher : B) (selfId : F)
    (jobs : Jobs String B F C) (c : C) :
    wrapperCall mapper reprK defaultGen target batcher selfId (some jobs) c =
      (defaultGen c,
        some (record jobs (reprK (mapper c)) batcher selfId c), 0) ∧
    memCall (record jobs (reprK (mapper c)) batcher selfId c)
      (reprK (mapper c)) batcher selfId c = true :=
  ⟨rfl, (memCall_record jobs _ _ _ _ _ _ _ _).mpr
    (Or.inl ⟨rfl, rfl, rfl, rfl⟩)⟩

/-- C3 (the code, not the claim): the monitoring loop of `_compute` is the
same unconditional prune/print/sleep polling cycle whatever value the
backend's `mode()` would report, and its event trace never contains a
blocking wait on a notification signal — `_compute` never consults
`backend.mode()` and never constructs a notify callback. -/
theorem compute_monitor_ignores_mode :
    ∀ (H : Type) (m : BackendMode)
      (pruneF : List H → Except RemoteError (List H)) (progress : Bool)
      (allJobs : List H) (fuel : Nat) (remaining : List H),
      computeMonitor m pruneF progress allJobs fuel remaining =
        computeMonitor .poll pruneF progress allJobs fuel remaining ∧
      hasNotifyWait
        (computeMonitor m pruneF progress allJobs fuel remaining).2 = false :=
  fun _ _ pruneF progress allJobs fuel remaining =>
    ⟨rfl, monitorLoop_no_notifyWait pruneF progress allJobs fuel remaining⟩

/-- C4 counterexample: with a backend present and no persistent cache
configured, the `run()` call that begins capture raises nothing (it
returns `True`) and does change state (it sets `_captured` and the
thread-local context) — contradicting "a fatal error is raised
immediately, with no partial state left behind" at capture start. -/
theorem cache_unvalidated_at_capture_cex :
    (runCall true false true ⟨false, false, false⟩).1 = .ok true ∧
    (runCall true false true ⟨false, false, false⟩).2.1 ≠
      ⟨false, false, false⟩ :=
  ⟨rfl, by decide⟩

/-- C4 amended: the cache is validated at the start of the compute
transition, not before capture begins: with no cache configured, the first
`run()` call starts capture normally; the second call raises the
`RuntimeError` before the backend is started (no `backendStart` event),
but only after the `_computed` flag is set and the context cleared; every
later call returns `False`. -/
theorem cache_checked_at_compute :
    runCall true false true ⟨false, false, false⟩ =
      (.ok true, ⟨true, false, true⟩, [.setCaptured, .setCtx]) ∧
    runCall true false true ⟨true, false, true⟩ =
      (.error .noCache, ⟨true, true, false⟩,
        [.setComputed, .clearCtx, .cacheCheckFailed]) ∧
    runCall true false true ⟨true, true, false⟩ =
      (.ok false, ⟨true, true, false⟩, []) :=
  ⟨rfl, rfl, rfl⟩

/-- C5: for the IPython and multiprocessing `prune` implementations:
`prune` succeeds exactly when no completed handle carries a remote
exception, and then returns the fresh sub-collection of exactly the
not-yet-complete handles (the input is not mutated — a new collection is
built); it raises the remote exception exactly when some completed handle
failed (so the exception of a completed unit surfaces on the pass that
detects it, and since success removes completed handles it cannot surface
again from the pruned collection); and it is idempotent on collections
from which completed handles were already pruned away.  For the
multiprocessing backend completeness is assessed after the
notification-queue drain, and a second call runs with the queue empty. -/
theorem prune_contract :
    ∀ (js r : List IPJob) (q : List String)
      (mjs mr : List (String × MPJob)),
      (ipPrune js = .ok r ↔
        ((∀ j ∈ js, j.ready = true → j.failed = false) ∧
          r = js.filter (fun j => !j.ready))) ∧
      (ipPrune js = .error .remote ↔
        ∃ j ∈ js, j.ready = true ∧ j.failed = true) ∧
      (ipPrune js = .ok r → ipPrune r = .ok r) ∧
      (mpPrune q mjs = .ok mr ↔
        ((∀ p ∈ drainQueue q mjs, p.2.ready = true → p.2.failed = false) ∧
          mr = (drainQueue q mjs).filter (fun p => !p.2.ready))) ∧
      (mpPrune q mjs = .ok mr → mpPrune [] mr = .ok mr) := by
  intro js r q mjs mr
  refine ⟨ipPrune_ok_iff js r, ?_, ?_, mpPruneScan_ok_iff _ mr, ?_⟩
  · constructor
    · intro h
      by_contra hne
      push_neg at hne
      have hnf : ∀ j ∈ js, j.ready = true → j.failed = false := by
        intro j hj hr
        have := hne j hj
        simp [hr] at this
        simpa using this
      have hok := ipPrune_ok_of_no_failure js hnf
      rw [h] at hok
      exact Except.noConfusion hok
    · exact ipPrune_error_of_failure js
  · intro h
    have hr := (ipPrune_ok_iff js r).mp h
    apply ipPrune_idem
    intro j hj
    rw [hr.2] at hj
    have := List.of_mem_filter hj
    simpa using this
  · intro h
    have hr := (mpPruneScan_ok_iff (drainQueue q mjs) mr).mp h
    apply mpPrune_idem
    intro p hp
    rw [hr.2] at hp
    have := List.of_mem_filter hp
    simpa using this

/-- C5 witness: a ready successful handle is pruned away, an unready one is
kept, and pruning the pruned collection again is a no-op. -/
theorem prune_contract_witness :
    ipPrune [⟨true, false⟩, ⟨false, false⟩] = .ok [⟨false, false⟩] ∧
    ipPrune [⟨false, false⟩] = .ok [⟨false, false⟩] ∧
    mpPrune ["a"] [("a", ⟨false, false⟩), ("b", ⟨false, false⟩)] =
      .ok [("b", ⟨false, false⟩)] := by
  have h := prune_contract [⟨true, false⟩, ⟨false, false⟩] [⟨false, false⟩]
    ["a"] [("a", ⟨false, false⟩), ("b", ⟨false, false⟩)]
    [("b", ⟨false, false⟩)]
  have h1 : ipPrune [⟨true, false⟩, ⟨false, false⟩] = .ok [⟨false, false⟩] :=
    h.1.mpr ⟨by decide, by decide⟩
  exact ⟨h1, h.2.2.1 h1, h.2.2.2.1.mpr ⟨by decide, by decide⟩⟩

/-- C6: in a registry built from the `_record` events of wrapped calls
(each event's key being the normalized routing key computed by its
wrapper from its call), two recorded calls appear under a common top-level
job group exactly when their normalized keys are equal. -/
theorem grouping_by_key {B F C : Type} [DecidableEq B] [DecidableEq F]
    [DecidableEq C] (keyFn : F → C → String) (L : List (Rec String B F C))
    (hK : ∀ e ∈ L, e.key = keyFn e.fn e.call) (e1 e2 : Rec String B F C)
    (h1 : e1 ∈ L) (h2 : e2 ∈ L) :
    (∃ k, memCall (buildJobs L) k e1.batcher e1.fn e1.call = true ∧
        memCall (buildJobs L) k e2.batcher e2.fn e2.call = true) ↔
      e1.key = e2.key := by
  constructor
  · rintro ⟨k, hm1, hm2⟩
    rw [memCall_buildJobs] at hm1 hm2
    have hk1 : k = keyFn e1.fn e1.call := hK _ hm1
    have hk2 : k = keyFn e2.fn e2.call := hK _ hm2
    rw [hK e1 h1, hK e2 h2, ← hk1, ← hk2]
  · intro hkey
    refine ⟨e1.key, ?_, ?_⟩
    · rw [memCall_buildJobs]
      have he : (⟨e1.key, e1.batcher, e1.fn, e1.call⟩ : Rec String B F C)
          = e1 := rfl
      rw [he]
      exact h1
    · rw [memCall_buildJobs, hkey]
      have he : (⟨e2.key, e2.batcher, e2.fn, e2.call⟩ : Rec String B F C)
          = e2 := rfl
      rw [he]
      exact h2

/-- C6 witness: two calls whose mapper results normalize to the same key
land in a common top-level group. -/
theorem grouping_by_key_witness :
    (∃ k,
      memCall (buildJobs [(⟨"1", 0, 0, 10⟩ : Rec String Nat Nat Nat),
        ⟨"1", 0, 0, 20⟩]) k 0 0 10 = true ∧
      memCall (buildJobs [(⟨"1", 0, 0, 10⟩ : Rec String Nat Nat Nat),
        ⟨"1", 0, 0, 20⟩]) k 0 0 20 = true) ↔ ("1" : String) = "1" :=
  grouping_by_key (fun _ _ => "1")
    [⟨"1", 0, 0, 10⟩, ⟨"1", 0, 0, 20⟩] (by decide)
    ⟨"1", 0, 0, 10⟩ ⟨"1", 0, 0, 20⟩ (by decide) (by decide)

/-- C7: `start` launches one unit per distinct top-level routing key, not
per call: the multiprocessing handle dictionary and the batch submission
list each have exactly one entry per distinct key of the recorded calls;
the payload handed to the units is exactly the per-key sub-structure of
the registry; and the unit for key `k` executes precisely the
batcher/function/call entries recorded under `k`. -/
theorem start_one_unit_per_key {B F C : Type} [DecidableEq B] [DecidableEq F]
    [DecidableEq C] (L : List (Rec String B F C)) :
    (mpStart (buildJobs L)).length = (L.map Rec.key).toFinset.card ∧
    (batchStart (buildJobs L)).length = (L.map Rec.key).toFinset.card ∧
    (mpStart (buildJobs L)).map Prod.snd = (buildJobs L).map Prod.snd ∧
    (∀ (k : String) (spec : List (B × List (F × List C))),
      lookupA (buildJobs L) k = some spec →
      ∀ (b : B) (f : F) (c : C),
        (memBatch spec b f c = true ↔
          (⟨k, b, f, c⟩ : Rec String B F C) ∈ L)) := by
  refine ⟨?_, ?_, ?_, ?_⟩
  · rw [← length_buildJobs]
    simp [mpStart]
  · rw [← length_buildJobs]
    simp [batchStart]
  · have h1 : (mpStart (buildJobs L)).map Prod.snd
        = ((buildJobs L).enum.map Prod.snd).map Prod.snd := by
      simp only [mpStart, List.map_map]
      rfl
    rw [h1, List.enum_map_snd]
  · intro k spec hspec b f c
    rw [← memCall_buildJobs]
    simp [memCall, hspec]

/-- C7 witness: three calls under two distinct keys produce exactly two
launched units, and the unit payload for key `"a"` carries exactly the
calls recorded under `"a"`. -/
theorem start_one_unit_per_key_witness :
    (mpStart (buildJobs [(⟨"a", 0, 0, 1⟩ : Rec String Nat Nat Nat),
      ⟨"b", 0, 0, 2⟩, ⟨"a", 0, 0, 3⟩])).length = 2 ∧
    (memBatch [(0, [(0, [1, 3])])] 0 0 3 = true ↔
      (⟨"a", 0, 0, 3⟩ : Rec String Nat Nat Nat) ∈
        [(⟨"a", 0, 0, 1⟩ : Rec String Nat Nat Nat), ⟨"b", 0, 0, 2⟩,
          ⟨"a", 0, 0, 3⟩]) := by
  have h := start_one_unit_per_key
    [(⟨"a", 0, 0, 1⟩ : Rec String Nat Nat Nat), ⟨"b", 0, 0, 2⟩,
      ⟨"a", 0, 0, 3⟩]
  refine ⟨?_, h.2.2.2 "a" [(0, [(0, [1, 3])])] (by decide) 0 0 3⟩
  rw [h.1]
  decide

/-- C8: fallback scenario with no backend: the single `run()` call returns
`True`, the three wrapped calls inside the loop execute transparently
(results `3, 7, 11`, counter `3`), the next `run()` call returns `False`,
and a direct call outside the loop yields `15` with the counter at `4`. -/
theorem fallback_scenario :
    runCall false true true ⟨false, false, false⟩ =
      (.ok true, ⟨true, true, false⟩, [.setCaptured, .setComputed]) ∧
    computationCall none (0, []) (1, 2) =
      (3, (1, [((1, 2), 3)]), none) ∧
    computationCall none (1, [((1, 2), 3)]) (3, 4) =
      (7, (2, [((1, 2), 3), ((3, 4), 7)]), none) ∧
    computationCall none (2, [((1, 2), 3), ((3, 4), 7)]) (5, 6) =
      (11, (3, [((1, 2), 3), ((3, 4), 7), ((5, 6), 11)]), none) ∧
    (runCall false true true ⟨true, true, false⟩).1 = .ok false ∧
    computationCall none (3, [((1, 2), 3), ((3, 4), 7), ((5, 6), 11)])
        (7, 8) =
      (15, (4, [((1, 2), 3), ((3, 4), 7), ((5, 6), 11), ((7, 8), 15)]),
        none) :=
  ⟨rfl, rfl, rfl, rfl, rfl, rfl⟩

/-- C9: when the job specification is empty, `start` returns an empty
handle collection, and the monitoring loop of `_compute` with progress
reporting enabled divides by the zero total and raises on its first pass,
while with progress reporting disabled it terminates immediately without
error. -/
theorem empty_jobs_monitor {H : Type}
    (pruneF : List H → Except RemoteError (List H)) (fuel : Nat)
    (h : pruneF [] = .ok []) :
    mpStart (buildJobs ([] : List (Rec String Nat Nat Nat))) = [] ∧
    monitorLoop pruneF true [] (fuel + 1) [] =
      (.error .divisionByZero, [.pruneCall]) ∧
    monitorLoop pruneF false [] (fuel + 1) [] = (.ok (), [.pruneCall]) := by
  refine ⟨rfl, ?_, ?_⟩
  · simp [monitorLoop, h]
  · simp [monitorLoop, h]

/-- C9 witness: instantiated with the IPython backend's `prune` on the
empty handle collection. -/
theorem empty_jobs_monitor_witness :
    monitorLoop ipPrune true [] 1 [] =
      (.error .divisionByZero, [.pruneCall]) ∧
    monitorLoop ipPrune false [] 1 [] = (.ok (), [.pruneCall]) := by
  have h := empty_jobs_monitor ipPrune 0 (by rfl)
  exact ⟨h.2.1, h.2.2⟩

/-- C10: on the Captured→Computed transition the `_computed` flag is set
and the thread-local context is cleared strictly before the backend is
started (the trace begins `setComputed, clearCtx` and `backendStart`, if
reached, follows), and this happens whether the compute step succeeds or
raises (missing cache or propagated remote failure); afterwards the
context is unset — so wrapped calls run their targets directly instead of
being captured — and every later `run()` call returns `False`. -/
theorem compute_transition_clears_context :
    (∀ cc co : Bool,
      runCall true cc co ⟨false, false, false⟩ =
        (.ok true, ⟨true, false, true⟩, [.setCaptured, .setCtx])) ∧
    (∀ cc co : Bool,
      (runCall true cc co ⟨true, false, true⟩).2.1 = ⟨true, true, false⟩ ∧
      (runCall true cc co ⟨true, false, true⟩).2.2 =
        .setComputed :: .clearCtx ::
          (if cc then [.backendStart] else [REvent.cacheCheckFailed])) ∧
    (runCall true false true ⟨true, false, true⟩).1 = .error .noCache ∧
    (runCall true true false ⟨true, false, true⟩).1 =
      .error .computeFailed ∧
    (∀ cc co x : Bool,
      runCall true cc co ⟨true, true, x⟩ =
        (.ok false, ⟨true, true, x⟩, [])) ∧
    (∀ (tgt dflt : Nat → Nat) (c : Nat),
      wrapperCall (fun x => x) toString dflt tgt 0 0 none c =
        (tgt c, none, 1)) := by
  refine ⟨?_, ?_, rfl, rfl, ?_, ?_⟩
  · intro cc co
    cases cc <;> cases co <;> rfl
  · intro cc co
    cases cc <;> cases co <;> exact ⟨rfl, rfl⟩
  · intro cc co x
    cases cc <;> cases co <;> cases x <;> rfl
  · intro tgt dflt c
    rfl

end OwlsParallel
